import Mathlib

/-!
Shallow embedding of `randomizer5.py`, the single-file pipeline that parses a
polycrystal configuration (`poly.cfg`), detects fractional coordinates,
randomly assigns five alloy species, and writes a LAMMPS data file.

Coordinates are modelled as exact rationals (`ℚ`); the script's Python floats
are used only for comparisons against small constants and a single multiply,
so the rational model coincides with the float semantics on everything the
claims below touch.  Python's ambient random generator is modelled as an
explicit `shuffle` function parameter whose contract is that it permutes its
argument.  Character-level string helpers are defined structurally over
`List Char` so that every definition evaluates inside the kernel.
-/

namespace Randomizer5

/-- One parsed atom: position, opaque grain id, and the species-type field
(`'type': 0` at parse time, to be assigned later) — mirrors the dict literal
built in the parse loop of `randomizer5.py`. -/
structure Atom where
  x : ℚ
  y : ℚ
  z : ℚ
  grain : String
  type : ℕ
deriving DecidableEq

/-- Python whitespace characters recognised by `str.split()` / `str.strip()`. -/
def isSpace (c : Char) : Bool :=
  c == ' ' || c == '\t' || c == '\n' || c == '\r' || c == '\x0b' || c == '\x0c'

/-- Model of Python `str.strip()` on the character list. -/
def pyStrip (cs : List Char) : List Char :=
  ((cs.dropWhile isSpace).reverse.dropWhile isSpace).reverse

/-- Helper for `pySplit`: accumulates the current token (reversed) and cuts at
whitespace, exactly like Python `str.split()` with no separator argument. -/
def splitWsAux : List Char → List Char → List (List Char)
  | [], acc => if acc.isEmpty then [] else [acc.reverse]
  | c :: rest, acc =>
    if isSpace c then
      if acc.isEmpty then splitWsAux rest [] else acc.reverse :: splitWsAux rest []
    else
      splitWsAux rest (c :: acc)

/-- Model of Python `str.split()` (split on whitespace runs, no empty fields). -/
def pySplit (cs : List Char) : List (List Char) := splitWsAux cs []

/-- Boolean prefix test on character lists. -/
def isPrefixL : List Char → List Char → Bool
  | [], _ => true
  | _ :: _, [] => false
  | a :: as, b :: bs => a == b && isPrefixL as bs

/-- Boolean substring (contiguous infix) test on character lists; models
Python's `"Fe" in s`. -/
def containsL (pat : List Char) : List Char → Bool
  | [] => isPrefixL pat []
  | c :: rest => isPrefixL pat (c :: rest) || containsL pat rest

/-- The header/body boundary test from `randomizer5.py`:
`"Fe" in line.strip()`. -/
def markerIn (line : String) : Bool := containsL ['F', 'e'] (pyStrip line.data)

/-- The header-splitting loop: while the marker has not been seen, lines go to
the header (including the marker line itself); afterwards every line goes to
the atom body. -/
def splitHeaderGo : Bool → List String → List String × List String
  | _, [] => ([], [])
  | found, l :: ls =>
    if found then
      let p := splitHeaderGo found ls
      (p.1, l :: p.2)
    else
      let p := splitHeaderGo (found || markerIn l) ls
      (l :: p.1, p.2)

/-- Split raw input lines into `(header_part, atom_part)` as in the script
(`found_fe_line` starts `False`). -/
def splitHeader (lines : List String) : List String × List String :=
  splitHeaderGo false lines

/-- Digit run to natural number (most significant first). -/
def digitsToNat (ds : List Char) : ℕ :=
  ds.foldl (fun n c => 10 * n + (c.toNat - 48)) 0

/-- Exponent suffix of a Python float literal: optional sign then a nonempty
digit run. -/
def pyFloatExp (m : ℚ) : List Char → Option ℚ
  | [] => none
  | '+' :: t => if t ≠ [] ∧ t.all Char.isDigit then some (m * (10 : ℚ) ^ (digitsToNat t : ℤ)) else none
  | '-' :: t => if t ≠ [] ∧ t.all Char.isDigit then some (m * (10 : ℚ) ^ (-(digitsToNat t : ℤ))) else none
  | c :: t => if (c :: t).all Char.isDigit then some (m * (10 : ℚ) ^ (digitsToNat (c :: t) : ℤ)) else none

/-- Unsigned part of a Python float literal: `digits [. digits] [exp]`, with at
least one digit in the integer or fractional part. -/
def pyFloatCore (cs : List Char) : Option ℚ :=
  let ip := cs.takeWhile Char.isDigit
  let rest1 := cs.dropWhile Char.isDigit
  let fp := match rest1 with
    | '.' :: t => t.takeWhile Char.isDigit
    | _ => []
  let rest2 := match rest1 with
    | '.' :: t => t.dropWhile Char.isDigit
    | _ => rest1
  if ip = [] ∧ fp = [] then none
  else
    let mant : ℚ := (digitsToNat ip : ℚ) + (digitsToNat fp : ℚ) / (10 : ℚ) ^ fp.length
    match rest2 with
    | [] => some mant
    | 'e' :: t => pyFloatExp mant t
    | 'E' :: t => pyFloatExp mant t
    | _ => none

/-- Model of Python's built-in `float()` on the decimal notations that occur in
configuration files (sign, digits, decimal point, optional exponent); any
string outside this shape fails, which the parse loop treats as a skip. -/
def pyFloat (s : String) : Option ℚ :=
  match s.data with
  | '+' :: t => pyFloatCore t
  | '-' :: t => (pyFloatCore t).map (fun q => -q)
  | t => pyFloatCore t

/-- One iteration of the atom-parsing loop: strip, skip blank lines, split,
require at least 4 fields, parse `x y z` as floats (grain id kept opaque);
a `ValueError` becomes `none` (the `continue`). -/
def parseAtomLine (line : String) : Option Atom :=
  let stripped := pyStrip line.data
  if stripped.isEmpty then none
  else
    let parts := pySplit stripped
    if parts.length < 4 then none
    else
      match pyFloat (String.mk (parts.getD 0 [])),
            pyFloat (String.mk (parts.getD 1 [])),
            pyFloat (String.mk (parts.getD 2 [])) with
      | some x, some y, some z =>
          some { x := x, y := y, z := z, grain := String.mk (parts.getD 3 []), type := 0 }
      | _, _, _ => none

/-- The atom-parsing loop over the whole body: malformed lines are skipped,
valid records kept in file order. -/
def parseAtoms (bodyLines : List String) : List Atom :=
  bodyLines.filterMap parseAtomLine

/-- Python `max` over a list (the script only applies it to nonempty lists). -/
def pyMax : List ℚ → ℚ
  | [] => 0
  | a :: t => t.foldl max a

/-- Python `min` over a list (the script only applies it to nonempty lists). -/
def pyMin : List ℚ → ℚ
  | [] => 0
  | a :: t => t.foldl min a

/-- Per-axis range `max(xs) - min(xs)` for the x coordinates. -/
def xRange (atoms : List Atom) : ℚ := pyMax (atoms.map Atom.x) - pyMin (atoms.map Atom.x)

/-- Per-axis range for the y coordinates. -/
def yRange (atoms : List Atom) : ℚ := pyMax (atoms.map Atom.y) - pyMin (atoms.map Atom.y)

/-- Per-axis range for the z coordinates. -/
def zRange (atoms : List Atom) : ℚ := pyMax (atoms.map Atom.z) - pyMin (atoms.map Atom.z)

/-- The in-place scaling `a['x'] *= 198.0` (etc.) applied to one atom. -/
def scaleAtom (a : Atom) : Atom :=
  { a with x := a.x * 198, y := a.y * 198, z := a.z * 198 }

/-- The coordinate normalizer: if all three ranges are strictly below 2 the
coordinates are taken to be fractional and every position is scaled by 198;
otherwise the list is left untouched. -/
def normalize (atoms : List Atom) : List Atom :=
  if xRange atoms < 2 ∧ yRange atoms < 2 ∧ zRange atoms < 2 then
    atoms.map scaleAtom
  else atoms

/-- The four equal group sizes `int(round(0.2 * n_atoms))`.  In exact
arithmetic `0.2 * n = n / 5`, whose fractional part is never `1/2`, so the
float computation and every tie-breaking convention agree with rounding the
rational `n / 5` to the nearest integer. -/
def groupSize (n : ℕ) : ℕ := (round ((n : ℚ) / 5)).toNat

/-- A Python slice `l[a:b]` with `0 ≤ a ≤ b` (out-of-range bounds clamp). -/
def pySlice (l : List ℕ) (a b : ℕ) : List ℕ := (l.drop a).take (b - a)

/-- The statement `atoms[idx]['type'] = t` (out-of-range index leaves the list
unchanged; the script only ever uses indices drawn from `range(n_atoms)`). -/
def setType : List Atom → ℕ → ℕ → List Atom
  | [], _, _ => []
  | a :: l, 0, t => { a with type := t } :: l
  | a :: l, i + 1, t => a :: setType l i t

/-- One assignment loop `for idx in «slice»: atoms[idx]['type'] = t`. -/
def assignAll (atoms : List Atom) (idxs : List ℕ) (t : ℕ) : List Atom :=
  idxs.foldl (fun l i => setType l i t) atoms

/-- The species assigner: slice the shuffled index list into four groups of
`groupSize` and a remainder, then run the five assignment loops in order
V(1), Nb(2), Ta(3), Ti(4), Zr(5). -/
def speciesAssign (atoms : List Atom) (perm : List ℕ) : List Atom :=
  let n := atoms.length
  let n1 := groupSize n
  let i1 := n1
  let i2 := i1 + n1
  let i3 := i2 + n1
  let i4 := i3 + n1
  let vIdx := pySlice perm 0 i1
  let nbIdx := pySlice perm i1 i2
  let taIdx := pySlice perm i2 i3
  let tiIdx := pySlice perm i3 i4
  let zrIdx := perm.drop i4
  assignAll (assignAll (assignAll (assignAll (assignAll atoms vIdx 1) nbIdx 2) taIdx 3) tiIdx 4) zrIdx 5

/-- Left-pad a natural number with zeros to the given width. -/
def natPad (width : ℕ) (n : ℕ) : String :=
  let s := toString n
  String.mk (List.replicate (width - s.length) '0') ++ s

/-- Python fixed-point formatting `f"{q:.6f}"`: round to six decimal places and
print with a six-digit fractional part (sign kept even for small negatives). -/
def fmt6 (q : ℚ) : String :=
  if q < 0 then
    let m := (round (-q * 1000000)).toNat
    "-" ++ toString (m / 1000000) ++ "." ++ natPad 6 (m % 1000000)
  else
    let m := (round (q * 1000000)).toNat
    toString (m / 1000000) ++ "." ++ natPad 6 (m % 1000000)

/-- The decimal text Python's `str()` prints for each literal in `mass_dict`
(these literals round-trip, so `str` reproduces their source digits). -/
def massStr : ℕ → String
  | 1 => "50.9415"
  | 2 => "92.90638"
  | 3 => "180.94788"
  | 4 => "47.867"
  | 5 => "91.224"
  | _ => ""

/-- One line of the atom section:
`f"{i} {atom['type']} {x:.6f} {y:.6f} {z:.6f}"`. -/
def atomLine (i : ℕ) (a : Atom) : String :=
  toString i ++ " " ++ toString a.type ++ " " ++
    fmt6 a.x ++ " " ++ fmt6 a.y ++ " " ++ fmt6 a.z

/-- The atom section: `enumerate(atoms, start=1)`. -/
def atomLines (atoms : List Atom) : List String :=
  atoms.mapIdx (fun i a => atomLine (i + 1) a)

/-- One box-bounds line `f"{lo:.6f} {hi:.6f} «tag»"`. -/
def boxLine (lo hi : ℚ) (tag : String) : String :=
  fmt6 lo ++ " " ++ fmt6 hi ++ " " ++ tag

/-- The full output file as its list of lines, in the exact order the script
writes them (writes ending in `"\n\n"` contribute a trailing blank line). -/
def outputLines (nAtoms : ℕ) (atoms : List Atom) : List String :=
  ["LAMMPS data file generated by automated_pipeline.py", "",
   toString nAtoms ++ " atoms",
   "5 atom types", "",
   boxLine 0 198 "xlo xhi",
   boxLine 0 198 "ylo yhi",
   boxLine 0 198 "zlo zhi", "",
   "Masses", ""]
  ++ (List.range' 1 5).map (fun t => toString t ++ " " ++ massStr t)
  ++ ["", "Atoms", ""]
  ++ atomLines atoms

/-- Byte content of the output file (every written line ends in a newline). -/
def fileContent (lines : List String) : String :=
  String.intercalate "\n" lines ++ "\n"

/-- The core pipeline (steps after the external Atomsk invocations): split the
header, parse the atom body, abort when no atom parsed, otherwise normalize,
shuffle the index range, assign species and produce the output lines.  The
ambient random generator is the explicit `shuffle` parameter. -/
def pipeline (shuffle : List ℕ → List ℕ) (input : List String) : Except String (List String) :=
  let body := (splitHeader input).2
  let atoms := parseAtoms body
  if atoms.length = 0 then Except.error "[ERROR] No atoms parsed. Exiting."
  else
    let normed := normalize atoms
    let perm := shuffle (List.range atoms.length)
    Except.ok (outputLines atoms.length (speciesAssign normed perm))

/-- The pipeline's output as file bytes. -/
def pipelineFile (shuffle : List ℕ → List ℕ) (input : List String) : Except String String :=
  (pipeline shuffle input).map fileContent

/-- Number of atoms carrying species type `t` (the per-species count the spec
reasons about). -/
def countType (atoms : List Atom) (t : ℕ) : ℕ :=
  atoms.countP (fun a => a.type == t)

/-- A freshly parsed atom at the origin, used as concrete test data. -/
def atom0 : Atom := { x := 0, y := 0, z := 0, grain := "1", type := 0 }

/-- A freshly parsed atom at x = 2, used as concrete test data for the
range-threshold boundary. -/
def atom2 : Atom := { x := 2, y := 0, z := 0, grain := "1", type := 0 }

/-- The species an original index receives, described by which of the five
permutation slices it falls in (the claim's "first four contiguous slices …
all remaining indices receive species 5"). -/
def sliceType (perm : List ℕ) (c i : ℕ) : ℕ :=
  if i ∈ perm.take c then 1
  else if i ∈ (perm.drop c).take c then 2
  else if i ∈ (perm.drop (c + c)).take c then 3
  else if i ∈ (perm.drop (c + c + c)).take c then 4
  else 5

/-- The species attached to a *position* of the permutation: the first four
blocks of size `c` in fixed order 1→2→3→4, everything beyond them 5. -/
def posType (c p : ℕ) : ℕ :=
  if p < c then 1
  else if p < c + c then 2
  else if p < c + c + c then 3
  else if p < c + c + c + c then 4
  else 5

theorem length_setType (l : List Atom) (i t : ℕ) : (setType l i t).length = l.length := by
  induction l generalizing i with
  | nil => rfl
  | cons a l ih =>
    cases i with
    | zero => rfl
    | succ i => simpa [setType] using ih i

theorem getElem?_setType (l : List Atom) (i t j : ℕ) :
    (setType l i t)[j]? =
      if j = i then (l[j]?).map (fun a => { a with type := t }) else l[j]? := by
  induction l generalizing i j with
  | nil => simp [setType]
  | cons a l ih =>
    cases i with
    | zero =>
      cases j with
      | zero => simp [setType]
      | succ j => simp [setType]
    | succ i =>
      cases j with
      | zero => simp [setType]
      | succ j => simpa [setType] using ih i j

theorem assignAll_cons (l : List Atom) (i : ℕ) (idxs : List ℕ) (t : ℕ) :
    assignAll l (i :: idxs) t = assignAll (setType l i t) idxs t := rfl

theorem length_assignAll (idxs : List ℕ) (l : List Atom) (t : ℕ) :
    (assignAll l idxs t).length = l.length := by
  induction idxs generalizing l with
  | nil => rfl
  | cons i idxs ih => rw [assignAll_cons, ih, length_setType]

theorem getElem?_assignAll_of_not_mem {j : ℕ} {idxs : List ℕ} (h : j ∉ idxs)
    (l : List Atom) (t : ℕ) : (assignAll l idxs t)[j]? = l[j]? := by
  induction idxs generalizing l with
  | nil => rfl
  | cons i idxs ih =>
    rw [assignAll_cons, ih (fun hm => h (List.mem_cons_of_mem _ hm)), getElem?_setType,
      if_neg (fun hji => h (by rw [hji]; exact List.mem_cons_self i idxs))]

theorem getElem?_assignAll_of_mem {j : ℕ} {idxs : List ℕ} (h : j ∈ idxs)
    (l : List Atom) (t : ℕ) :
    (assignAll l idxs t)[j]? = (l[j]?).map (fun a => { a with type := t }) := by
  induction idxs generalizing l with
  | nil => cases h
  | cons i idxs ih =>
    rw [assignAll_cons]
    by_cases hm : j ∈ idxs
    · rw [ih hm, getElem?_setType]
      by_cases hji : j = i
      · rw [if_pos hji]
        cases l[j]? <;> rfl
      · rw [if_neg hji]
    · have hji : j = i := by
        rcases List.mem_cons.mp h with h1 | h2
        · exact h1
        · exact absurd h2 hm
      rw [getElem?_assignAll_of_not_mem hm, getElem?_setType, if_pos hji]

theorem slices_cover (l : List ℕ) (c : ℕ) :
    l.take c ++ ((l.drop c).take c ++ ((l.drop (c + c)).take c ++
      ((l.drop (c + c + c)).take c ++ l.drop (c + c + c + c)))) = l := by
  have h4 : (l.drop (c + c + c)).take c ++ l.drop (c + c + c + c) = l.drop (c + c + c) := by
    have h := List.take_append_drop c (l.drop (c + c + c))
    rwa [List.drop_drop] at h
  have h3 : (l.drop (c + c)).take c ++ l.drop (c + c + c) = l.drop (c + c) := by
    have h := List.take_append_drop c (l.drop (c + c))
    rwa [List.drop_drop] at h
  have h2 : (l.drop c).take c ++ l.drop (c + c) = l.drop c := by
    have h := List.take_append_drop c (l.drop c)
    rwa [List.drop_drop] at h
  rw [h4, h3, h2, List.take_append_drop]

theorem speciesAssign_def (atoms : List Atom) (perm : List ℕ) :
    speciesAssign atoms perm =
      assignAll (assignAll (assignAll (assignAll
        (assignAll atoms (perm.take (groupSize atoms.length)) 1)
        ((perm.drop (groupSize atoms.length)).take (groupSize atoms.length)) 2)
        ((perm.drop (groupSize atoms.length + groupSize atoms.length)).take (groupSize atoms.length)) 3)
        ((perm.drop (groupSize atoms.length + groupSize atoms.length + groupSize atoms.length)).take (groupSize atoms.length)) 4)
        (perm.drop (groupSize atoms.length + groupSize atoms.length + groupSize atoms.length + groupSize atoms.length)) 5 := by
  simp only [speciesAssign, pySlice, Nat.sub_zero, List.drop_zero, Nat.add_sub_cancel,
    Nat.add_sub_cancel_left]

theorem mem_slices_of_mem {perm : List ℕ} (c : ℕ) {i : ℕ} (h : i ∈ perm) :
    i ∈ perm.take c ∨ i ∈ (perm.drop c).take c ∨ i ∈ (perm.drop (c + c)).take c ∨
      i ∈ (perm.drop (c + c + c)).take c ∨ i ∈ perm.drop (c + c + c + c) := by
  rw [← slices_cover perm c] at h
  rcases List.mem_append.mp h with h1 | h
  · exact Or.inl h1
  rcases List.mem_append.mp h with h2 | h
  · exact Or.inr (Or.inl h2)
  rcases List.mem_append.mp h with h3 | h
  · exact Or.inr (Or.inr (Or.inl h3))
  rcases List.mem_append.mp h with h4 | h5
  · exact Or.inr (Or.inr (Or.inr (Or.inl h4)))
  · exact Or.inr (Or.inr (Or.inr (Or.inr h5)))

/-- Pairwise disjointness of the five slices of a duplicate-free list, packaged
as the "earlier slice excludes later slices" facts used below. -/
theorem slices_disjoint {perm : List ℕ} (c : ℕ) (hnd : perm.Nodup) (i : ℕ) :
    (i ∈ perm.take c →
        i ∉ (perm.drop c).take c ∧ i ∉ (perm.drop (c + c)).take c ∧
        i ∉ (perm.drop (c + c + c)).take c ∧ i ∉ perm.drop (c + c + c + c)) ∧
    (i ∈ (perm.drop c).take c →
        i ∉ (perm.drop (c + c)).take c ∧ i ∉ (perm.drop (c + c + c)).take c ∧
        i ∉ perm.drop (c + c + c + c)) ∧
    (i ∈ (perm.drop (c + c)).take c →
        i ∉ (perm.drop (c + c + c)).take c ∧ i ∉ perm.drop (c + c + c + c)) ∧
    (i ∈ (perm.drop (c + c + c)).take c → i ∉ perm.drop (c + c + c + c)) := by
  rw [← slices_cover perm c] at hnd
  obtain ⟨-, hnd, hd1⟩ := List.nodup_append.mp hnd
  obtain ⟨-, hnd, hd2⟩ := List.nodup_append.mp hnd
  obtain ⟨-, hnd, hd3⟩ := List.nodup_append.mp hnd
  obtain ⟨-, -, hd4⟩ := List.nodup_append.mp hnd
  refine ⟨fun h1 => ?_, fun h2 => ?_, fun h3 => ?_, fun h4 => ?_⟩
  · have h := hd1 h1
    exact ⟨fun hx => h (List.mem_append_left _ hx),
      fun hx => h (List.mem_append_right _ (List.mem_append_left _ hx)),
      fun hx => h (List.mem_append_right _ (List.mem_append_right _ (List.mem_append_left _ hx))),
      fun hx => h (List.mem_append_right _ (List.mem_append_right _ (List.mem_append_right _ hx)))⟩
  · have h := hd2 h2
    exact ⟨fun hx => h (List.mem_append_left _ hx),
      fun hx => h (List.mem_append_right _ (List.mem_append_left _ hx)),
      fun hx => h (List.mem_append_right _ (List.mem_append_right _ hx))⟩
  · have h := hd3 h3
    exact ⟨fun hx => h (List.mem_append_left _ hx),
      fun hx => h (List.mem_append_right _ hx)⟩
  · exact hd4 h4

/-- Pointwise description of the species assigner: position `j` of the atom
list ends up with its original data, its `type` replaced by the slice of the
permutation that contains `j` (indices beyond the atom count are untouched
because they never occur in the permutation). -/
theorem speciesAssign_getElem? (atoms : List Atom) (perm : List ℕ)
    (hp : perm.Perm (List.range atoms.length)) (j : ℕ) :
    (speciesAssign atoms perm)[j]? =
      (atoms[j]?).map (fun a => { a with type := sliceType perm (groupSize atoms.length) j }) := by
  have hnd : perm.Nodup := hp.nodup_iff.mpr (List.nodup_range _)
  set c := groupSize atoms.length with hc
  rw [speciesAssign_def]
  have hdisj := slices_disjoint c hnd j
  by_cases m1 : j ∈ perm.take c
  · obtain ⟨n2, n3, n4, n5⟩ := hdisj.1 m1
    rw [getElem?_assignAll_of_not_mem n5, getElem?_assignAll_of_not_mem n4,
      getElem?_assignAll_of_not_mem n3, getElem?_assignAll_of_not_mem n2,
      getElem?_assignAll_of_mem m1]
    simp [sliceType, m1]
  · by_cases m2 : j ∈ (perm.drop c).take c
    · obtain ⟨n3, n4, n5⟩ := hdisj.2.1 m2
      rw [getElem?_assignAll_of_not_mem n5, getElem?_assignAll_of_not_mem n4,
        getElem?_assignAll_of_not_mem n3, getElem?_assignAll_of_mem m2,
        getElem?_assignAll_of_not_mem m1]
      simp [sliceType, m1, m2]
    · by_cases m3 : j ∈ (perm.drop (c + c)).take c
      · obtain ⟨n4, n5⟩ := hdisj.2.2.1 m3
        rw [getElem?_assignAll_of_not_mem n5, getElem?_assignAll_of_not_mem n4,
          getElem?_assignAll_of_mem m3, getElem?_assignAll_of_not_mem m2,
          getElem?_assignAll_of_not_mem m1]
        simp [sliceType, m1, m2, m3]
      · by_cases m4 : j ∈ (perm.drop (c + c + c)).take c
        · have n5 := hdisj.2.2.2 m4
          rw [getElem?_assignAll_of_not_mem n5, getElem?_assignAll_of_mem m4,
            getElem?_assignAll_of_not_mem m3, getElem?_assignAll_of_not_mem m2,
            getElem?_assignAll_of_not_mem m1]
          simp [sliceType, m1, m2, m3, m4]
        · by_cases m5 : j ∈ perm.drop (c + c + c + c)
          · rw [getElem?_assignAll_of_mem m5, getElem?_assignAll_of_not_mem m4,
              getElem?_assignAll_of_not_mem m3, getElem?_assignAll_of_not_mem m2,
              getElem?_assignAll_of_not_mem m1]
            simp [sliceType, m1, m2, m3, m4]
          · have hjperm : j ∉ perm := by
              intro hj
              rcases mem_slices_of_mem c hj with h | h | h | h | h
              · exact m1 h
              · exact m2 h
              · exact m3 h
              · exact m4 h
              · exact m5 h
            have hlen : atoms.length ≤ j := by
              by_contra hlt
              push_neg at hlt
              exact hjperm (hp.mem_iff.mpr (List.mem_range.mpr hlt))
            rw [getElem?_assignAll_of_not_mem m5, getElem?_assignAll_of_not_mem m4,
              getElem?_assignAll_of_not_mem m3, getElem?_assignAll_of_not_mem m2,
              getElem?_assignAll_of_not_mem m1, List.getElem?_eq_none hlen]
            rfl

/-- The assigned list as a whole: each entry is the original atom with its
`type` replaced according to the slice containing its index. -/
theorem speciesAssign_eq_mapIdx (atoms : List Atom) (perm : List ℕ)
    (hp : perm.Perm (List.range atoms.length)) :
    speciesAssign atoms perm =
      atoms.mapIdx (fun i a => { a with type := sliceType perm (groupSize atoms.length) i }) := by
  apply List.ext_getElem?
  intro j
  rw [speciesAssign_getElem? atoms perm hp j, List.getElem?_mapIdx]

theorem length_speciesAssign (atoms : List Atom) (perm : List ℕ) :
    (speciesAssign atoms perm).length = atoms.length := by
  rw [speciesAssign_def]
  simp [length_assignAll]

/-- Counting a species over the assigned list reduces to counting indices of
`range n` whose slice gives that species. -/
theorem countType_speciesAssign (atoms : List Atom) (perm : List ℕ)
    (hp : perm.Perm (List.range atoms.length)) (k : ℕ) :
    countType (speciesAssign atoms perm) k =
      (List.range atoms.length).countP
        (fun i => sliceType perm (groupSize atoms.length) i == k) := by
  rw [countType, speciesAssign_eq_mapIdx atoms perm hp, List.mapIdx_eq_enum_map,
    List.countP_map]
  have henum : (List.enum atoms).map Prod.fst = List.range atoms.length := by
    rw [List.enum, List.enumFrom_map_fst, ← List.range_eq_range']
  rw [← henum, List.countP_map]
  rfl

/-- Counting members of a duplicate-free list `s ⊆ range n` inside `range n`
just measures `s`. -/
theorem countP_mem_range {s : List ℕ} {n : ℕ} (hnd : s.Nodup) (hsub : ∀ x ∈ s, x < n) :
    (List.range n).countP (fun i => decide (i ∈ s)) = s.length := by
  rw [List.countP_eq_length_filter]
  have hperm : ((List.range n).filter (fun i => decide (i ∈ s))).Perm s := by
    rw [List.perm_ext_iff_of_nodup ((List.nodup_range n).filter _) hnd]
    intro a
    simp only [List.mem_filter, List.mem_range, decide_eq_true_eq]
    exact ⟨fun h => h.2, fun h => ⟨hsub a h, h⟩⟩
  exact hperm.length_eq

theorem sliceType_eq_one_iff {perm : List ℕ} {c i : ℕ} :
    sliceType perm c i = 1 ↔ i ∈ perm.take c := by
  by_cases m1 : i ∈ perm.take c
  · simp [sliceType, m1]
  · rw [sliceType, if_neg m1]
    constructor
    · intro h
      exfalso
      split_ifs at h <;> omega
    · intro h
      exact absurd h m1

theorem sliceType_eq_two_iff {perm : List ℕ} {c i : ℕ} (hnd : perm.Nodup) :
    sliceType perm c i = 2 ↔ i ∈ (perm.drop c).take c := by
  by_cases m2 : i ∈ (perm.drop c).take c
  · have m1 : i ∉ perm.take c := fun h1 => ((slices_disjoint c hnd i).1 h1).1 m2
    simp [sliceType, m1, m2]
  · constructor
    · intro h
      exfalso
      rw [sliceType] at h
      split_ifs at h <;> first | exact m2 (by assumption) | omega
    · intro h
      exact absurd h m2

theorem sliceType_eq_three_iff {perm : List ℕ} {c i : ℕ} (hnd : perm.Nodup) :
    sliceType perm c i = 3 ↔ i ∈ (perm.drop (c + c)).take c := by
  by_cases m3 : i ∈ (perm.drop (c + c)).take c
  · have m1 : i ∉ perm.take c := fun h1 => ((slices_disjoint c hnd i).1 h1).2.1 m3
    have m2 : i ∉ (perm.drop c).take c := fun h2 => ((slices_disjoint c hnd i).2.1 h2).1 m3
    simp [sliceType, m1, m2, m3]
  · constructor
    · intro h
      exfalso
      rw [sliceType] at h
      split_ifs at h <;> first | exact m3 (by assumption) | omega
    · intro h
      exact absurd h m3

theorem sliceType_eq_four_iff {perm : List ℕ} {c i : ℕ} (hnd : perm.Nodup) :
    sliceType perm c i = 4 ↔ i ∈ (perm.drop (c + c + c)).take c := by
  by_cases m4 : i ∈ (perm.drop (c + c + c)).take c
  · have m1 : i ∉ perm.take c := fun h1 => ((slices_disjoint c hnd i).1 h1).2.2.1 m4
    have m2 : i ∉ (perm.drop c).take c := fun h2 => ((slices_disjoint c hnd i).2.1 h2).2.1 m4
    have m3 : i ∉ (perm.drop (c + c)).take c :=
      fun h3 => ((slices_disjoint c hnd i).2.2.1 h3).1 m4
    simp [sliceType, m1, m2, m3, m4]
  · constructor
    · intro h
      exfalso
      rw [sliceType] at h
      split_ifs at h <;> first | exact m4 (by assumption) | omega
    · intro h
      exact absurd h m4

theorem sliceType_eq_five_iff {perm : List ℕ} {c i : ℕ} (hnd : perm.Nodup)
    (hmem : i ∈ perm) : sliceType perm c i = 5 ↔ i ∈ perm.drop (c + c + c + c) := by
  constructor
  · intro h
    rcases mem_slices_of_mem c hmem with h1 | h2 | h3 | h4 | h5
    · rw [sliceType_eq_one_iff.mpr h1] at h
      omega
    · rw [sliceType_eq_two_iff hnd |>.mpr h2] at h
      omega
    · rw [sliceType_eq_three_iff hnd |>.mpr h3] at h
      omega
    · rw [sliceType_eq_four_iff hnd |>.mpr h4] at h
      omega
    · exact h5
  · intro h5
    have m1 : i ∉ perm.take c := fun h1 => ((slices_disjoint c hnd i).1 h1).2.2.2 h5
    have m2 : i ∉ (perm.drop c).take c :=
      fun h2 => ((slices_disjoint c hnd i).2.1 h2).2.2 h5
    have m3 : i ∉ (perm.drop (c + c)).take c :=
      fun h3 => ((slices_disjoint c hnd i).2.2.1 h3).2 h5
    have m4 : i ∉ (perm.drop (c + c + c)).take c :=
      fun h4 => (slices_disjoint c hnd i).2.2.2 h4 h5
    simp [sliceType, m1, m2, m3, m4]

/-- Sizes of the five slices of the shuffled index list, one count per
species. -/
theorem countType_eq_slice_length (atoms : List Atom) (perm : List ℕ)
    (hp : perm.Perm (List.range atoms.length)) :
    countType (speciesAssign atoms perm) 1 = (perm.take (groupSize atoms.length)).length ∧
    countType (speciesAssign atoms perm) 2 =
      ((perm.drop (groupSize atoms.length)).take (groupSize atoms.length)).length ∧
    countType (speciesAssign atoms perm) 3 =
      ((perm.drop (groupSize atoms.length + groupSize atoms.length)).take (groupSize atoms.length)).length ∧
    countType (speciesAssign atoms perm) 4 =
      ((perm.drop (groupSize atoms.length + groupSize atoms.length + groupSize atoms.length)).take (groupSize atoms.length)).length ∧
    countType (speciesAssign atoms perm) 5 =
      (perm.drop (groupSize atoms.length + groupSize atoms.length + groupSize atoms.length + groupSize atoms.length)).length := by
  have hnd : perm.Nodup := hp.nodup_iff.mpr (List.nodup_range _)
  set n := atoms.length with hn
  set c := groupSize n with hc
  have hsub : ∀ x ∈ perm, x < n := fun x hx => List.mem_range.mp (hp.mem_iff.mp hx)
  refine ⟨?_, ?_, ?_, ?_, ?_⟩
  · rw [countType_speciesAssign atoms perm hp 1]
    have h1 : (List.range n).countP (fun i => sliceType perm c i == 1) =
        (List.range n).countP (fun i => decide (i ∈ perm.take c)) :=
      List.countP_congr (fun i _ => by
        simp only [beq_iff_eq, decide_eq_true_eq]
        exact sliceType_eq_one_iff)
    rw [h1]
    exact countP_mem_range (hnd.sublist (List.take_sublist c perm))
      (fun x hx => hsub x (List.take_subset c perm hx))
  · rw [countType_speciesAssign atoms perm hp 2]
    have h2 : (List.range n).countP (fun i => sliceType perm c i == 2) =
        (List.range n).countP (fun i => decide (i ∈ (perm.drop c).take c)) :=
      List.countP_congr (fun i _ => by
        simp only [beq_iff_eq, decide_eq_true_eq]
        exact sliceType_eq_two_iff hnd)
    rw [h2]
    exact countP_mem_range
      (hnd.sublist ((List.take_sublist c _).trans (List.drop_sublist c perm)))
      (fun x hx => hsub x ((List.drop_subset c perm) (List.take_subset c _ hx)))
  · rw [countType_speciesAssign atoms perm hp 3]
    have h3 : (List.range n).countP (fun i => sliceType perm c i == 3) =
        (List.range n).countP (fun i => decide (i ∈ (perm.drop (c + c)).take c)) :=
      List.countP_congr (fun i _ => by
        simp only [beq_iff_eq, decide_eq_true_eq]
        exact sliceType_eq_three_iff hnd)
    rw [h3]
    exact countP_mem_range
      (hnd.sublist ((List.take_sublist c _).trans (List.drop_sublist (c + c) perm)))
      (fun x hx => hsub x ((List.drop_subset (c + c) perm) (List.take_subset c _ hx)))
  · rw [countType_speciesAssign atoms perm hp 4]
    have h4 : (List.range n).countP (fun i => sliceType perm c i == 4) =
        (List.range n).countP (fun i => decide (i ∈ (perm.drop (c + c + c)).take c)) :=
      List.countP_congr (fun i _ => by
        simp only [beq_iff_eq, decide_eq_true_eq]
        exact sliceType_eq_four_iff hnd)
    rw [h4]
    exact countP_mem_range
      (hnd.sublist ((List.take_sublist c _).trans (List.drop_sublist (c + c + c) perm)))
      (fun x hx => hsub x ((List.drop_subset (c + c + c) perm) (List.take_subset c _ hx)))
  · rw [countType_speciesAssign atoms perm hp 5]
    have h5 : (List.range n).countP (fun i => sliceType perm c i == 5) =
        (List.range n).countP (fun i => decide (i ∈ perm.drop (c + c + c + c))) :=
      List.countP_congr (fun i hi => by
        simp only [beq_iff_eq, decide_eq_true_eq]
        exact sliceType_eq_five_iff hnd
          (hp.mem_iff.mpr (List.mem_range.mpr (List.mem_range.mp hi))))
    rw [h5]
    exact countP_mem_range (hnd.sublist (List.drop_sublist (c + c + c + c) perm))
      (fun x hx => hsub x (List.drop_subset (c + c + c + c) perm hx))

theorem sliceType_bounds (perm : List ℕ) (c i : ℕ) :
    1 ≤ sliceType perm c i ∧ sliceType perm c i ≤ 5 := by
  rw [sliceType]
  split_ifs <;> omega

theorem speciesAssign_type_bounds (atoms : List Atom) (perm : List ℕ)
    (hp : perm.Perm (List.range atoms.length)) :
    ∀ a ∈ speciesAssign atoms perm, 1 ≤ a.type ∧ a.type ≤ 5 := by
  intro a ha
  rw [speciesAssign_eq_mapIdx atoms perm hp] at ha
  obtain ⟨j, hj⟩ := List.mem_iff_getElem?.mp ha
  rw [List.getElem?_mapIdx] at hj
  obtain ⟨b, -, hb⟩ := Option.map_eq_some'.mp hj
  rw [← hb]
  exact sliceType_bounds perm (groupSize atoms.length) j

theorem countType_sum_eq_length (l : List Atom) (h : ∀ a ∈ l, 1 ≤ a.type ∧ a.type ≤ 5) :
    countType l 1 + countType l 2 + countType l 3 + countType l 4 + countType l 5 =
      l.length := by
  induction l with
  | nil => rfl
  | cons a l ih =>
    have ha := h a (List.mem_cons_self a l)
    have hl := ih (fun b hb => h b (List.mem_cons_of_mem a hb))
    have hcase : a.type = 1 ∨ a.type = 2 ∨ a.type = 3 ∨ a.type = 4 ∨ a.type = 5 := by omega
    simp only [countType, List.countP_cons, List.length_cons] at hl ⊢
    rcases hcase with h1 | h1 | h1 | h1 | h1 <;> simp only [h1] <;> norm_num <;> omega

theorem sliceType_of_getElem {perm : List ℕ} {c p i : ℕ} (hnd : perm.Nodup)
    (hpi : perm[p]? = some i) : sliceType perm c i = posType c p := by
  rw [posType]
  split_ifs with h1 h2 h3 h4
  · apply sliceType_eq_one_iff.mpr
    have h : (perm.take c)[p]? = some i := by
      rw [List.getElem?_take, if_pos h1]
      exact hpi
    exact List.getElem?_mem h
  · apply (sliceType_eq_two_iff hnd).mpr
    have h : ((perm.drop c).take c)[p - c]? = some i := by
      rw [List.getElem?_take, if_pos (by omega : p - c < c), List.getElem?_drop,
        show c + (p - c) = p from by omega]
      exact hpi
    exact List.getElem?_mem h
  · apply (sliceType_eq_three_iff hnd).mpr
    have h : ((perm.drop (c + c)).take c)[p - (c + c)]? = some i := by
      rw [List.getElem?_take, if_pos (by omega : p - (c + c) < c), List.getElem?_drop,
        show (c + c) + (p - (c + c)) = p from by omega]
      exact hpi
    exact List.getElem?_mem h
  · apply (sliceType_eq_four_iff hnd).mpr
    have h : ((perm.drop (c + c + c)).take c)[p - (c + c + c)]? = some i := by
      rw [List.getElem?_take, if_pos (by omega : p - (c + c + c) < c), List.getElem?_drop,
        show (c + c + c) + (p - (c + c + c)) = p from by omega]
      exact hpi
    exact List.getElem?_mem h
  · apply (sliceType_eq_five_iff hnd (List.getElem?_mem hpi)).mpr
    have h : (perm.drop (c + c + c + c))[p - (c + c + c + c)]? = some i := by
      rw [List.getElem?_drop, show (c + c + c + c) + (p - (c + c + c + c)) = p from by omega]
      exact hpi
    exact List.getElem?_mem h

theorem speciesAssign_pos (atoms : List Atom) (perm : List ℕ)
    (hp : perm.Perm (List.range atoms.length)) (p i : ℕ) (hpi : perm[p]? = some i) :
    (speciesAssign atoms perm)[i]? =
      (atoms[i]?).map (fun a => { a with type := posType (groupSize atoms.length) p }) := by
  rw [speciesAssign_getElem? atoms perm hp i,
    sliceType_of_getElem (hp.nodup_iff.mpr (List.nodup_range _)) hpi]

theorem speciesAssign_coords (atoms : List Atom) (perm : List ℕ)
    (hp : perm.Perm (List.range atoms.length)) (i : ℕ) :
    ((speciesAssign atoms perm)[i]?).map (fun a => (a.x, a.y, a.z, a.grain)) =
      (atoms[i]?).map (fun a => (a.x, a.y, a.z, a.grain)) := by
  rw [speciesAssign_getElem? atoms perm hp i]
  cases atoms[i]? <;> rfl

theorem length_normalize (atoms : List Atom) : (normalize atoms).length = atoms.length := by
  rw [normalize]
  split_ifs <;> simp

theorem splitHeaderGo_true (ls : List String) : splitHeaderGo true ls = ([], ls) := by
  induction ls with
  | nil => rfl
  | cons l ls ih => simp [splitHeaderGo, ih]

theorem splitHeader_marker (pre : List String) (m : String) (post : List String)
    (hpre : ∀ l ∈ pre, markerIn l = false) (hm : markerIn m = true) :
    splitHeader (pre ++ m :: post) = (pre ++ [m], post) := by
  induction pre with
  | nil => simp [splitHeader, splitHeaderGo, hm, splitHeaderGo_true]
  | cons l pre ih =>
    have hl : markerIn l = false := hpre l (List.mem_cons_self l pre)
    have ih := ih (fun x hx => hpre x (List.mem_cons_of_mem l hx))
    rw [splitHeader] at ih ⊢
    simp [splitHeaderGo, hl, ih]

theorem splitHeader_no_marker (input : List String)
    (h : ∀ l ∈ input, markerIn l = false) : splitHeader input = (input, []) := by
  induction input with
  | nil => rfl
  | cons l ls ih =>
    have hl : markerIn l = false := h l (List.mem_cons_self l ls)
    have ih := ih (fun x hx => h x (List.mem_cons_of_mem l hx))
    rw [splitHeader] at ih ⊢
    simp [splitHeaderGo, hl, ih]

theorem pipeline_of_no_atoms (shuffle : List ℕ → List ℕ) (input : List String)
    (h : parseAtoms (splitHeader input).2 = []) :
    pipeline shuffle input = Except.error "[ERROR] No atoms parsed. Exiting." := by
  rw [pipeline, h]
  rfl

theorem pipeline_of_atoms (shuffle : List ℕ → List ℕ) (input : List String)
    (h : (parseAtoms (splitHeader input).2).length ≠ 0) :
    pipeline shuffle input =
      Except.ok (outputLines (parseAtoms (splitHeader input).2).length
        (speciesAssign (normalize (parseAtoms (splitHeader input).2))
          (shuffle (List.range (parseAtoms (splitHeader input).2).length)))) := by
  rw [pipeline, if_neg h]

theorem atomLines_getElem? (atoms : List Atom) (i : ℕ) :
    (atomLines atoms)[i]? = (atoms[i]?).map (fun a => atomLine (i + 1) a) := by
  rw [atomLines, List.getElem?_mapIdx]

theorem length_atomLines (atoms : List Atom) : (atomLines atoms).length = atoms.length :=
  List.length_mapIdx

theorem length_outputLines (n : ℕ) (atoms : List Atom) :
    (outputLines n atoms).length = 19 + atoms.length := by
  simp [outputLines, length_atomLines]
  omega

theorem outputLines_drop (n : ℕ) (atoms : List Atom) :
    (outputLines n atoms).drop 19 = atomLines atoms := rfl

theorem outputLines_countLine (n : ℕ) (atoms : List Atom) :
    (outputLines n atoms)[2]? = some (toString n ++ " atoms") := rfl

theorem parseAtomLine_eq_none {line : String}
    (h : (pySplit (pyStrip line.data)).length < 4 ∨
      pyFloat (String.mk ((pySplit (pyStrip line.data)).getD 0 [])) = none ∨
      pyFloat (String.mk ((pySplit (pyStrip line.data)).getD 1 [])) = none ∨
      pyFloat (String.mk ((pySplit (pyStrip line.data)).getD 2 [])) = none) :
    parseAtomLine line = none := by
  rw [parseAtomLine]
  by_cases hempty : (pyStrip line.data).isEmpty
  · rw [if_pos hempty]
  · rw [if_neg hempty]
    by_cases hlen : (pySplit (pyStrip line.data)).length < 4
    · rw [if_pos hlen]
    · rw [if_neg hlen]
      rcases h with h | h | h | h
      · exact absurd h hlen
      · rw [h]
      · cases pyFloat (String.mk ((pySplit (pyStrip line.data)).getD 0 [])) <;>
          first
            | rfl
            | (rw [h])
      · cases pyFloat (String.mk ((pySplit (pyStrip line.data)).getD 0 [])) <;>
          first
            | rfl
            | (cases pyFloat (String.mk ((pySplit (pyStrip line.data)).getD 1 [])) <;>
                first
                  | rfl
                  | (rw [h]))

theorem parseAtoms_skip (pre post : List String) (bad : String)
    (h : parseAtomLine bad = none) :
    parseAtoms (pre ++ bad :: post) = parseAtoms (pre ++ post) := by
  rw [parseAtoms, parseAtoms, List.filterMap_append, List.filterMap_append,
    List.filterMap_cons_none h]

theorem normalize_of_fractional (atoms : List Atom) (hx : xRange atoms < 2)
    (hy : yRange atoms < 2) (hz : zRange atoms < 2) :
    normalize atoms = atoms.map scaleAtom := by
  rw [normalize, if_pos ⟨hx, hy, hz⟩]

theorem normalize_of_absolute (atoms : List Atom)
    (h : ¬(xRange atoms < 2 ∧ yRange atoms < 2 ∧ zRange atoms < 2)) :
    normalize atoms = atoms := by
  rw [normalize, if_neg h]

/-- C1 (amended): for every parsed atom set of size N > 0 and every random
permutation of its index range, provided the four computed group sizes fit,
i.e. 4·round(0.2·N) ≤ N (this fails only at N = 3), the species assigner gives
species 1, 2, 3 and 4 exactly round(0.2·N) atoms each — the first four
contiguous slices of the permutation in fixed order 1→2→3→4 — and every
remaining index of the permutation receives species 5 (so species 5 gets the
other N − 4·round(0.2·N) atoms). -/
theorem claim_C1_quota (atoms : List Atom) (perm : List ℕ)
    (hp : perm.Perm (List.range atoms.length)) (hN : 0 < atoms.length)
    (hq : 4 * groupSize atoms.length ≤ atoms.length) :
    countType (speciesAssign atoms perm) 1 = groupSize atoms.length ∧
    countType (speciesAssign atoms perm) 2 = groupSize atoms.length ∧
    countType (speciesAssign atoms perm) 3 = groupSize atoms.length ∧
    countType (speciesAssign atoms perm) 4 = groupSize atoms.length ∧
    countType (speciesAssign atoms perm) 5 =
      atoms.length - 4 * groupSize atoms.length ∧
    (∀ p i, perm[p]? = some i →
      (speciesAssign atoms perm)[i]? =
        (atoms[i]?).map (fun (a : Atom) => { a with type := posType (groupSize atoms.length) p })) := by
  obtain ⟨h1, h2, h3, h4, h5⟩ := countType_eq_slice_length atoms perm hp
  have hlen : perm.length = atoms.length := hp.length_eq.trans (List.length_range _)
  have hcle : groupSize atoms.length ≤ atoms.length := by omega
  refine ⟨?_, ?_, ?_, ?_, ?_, ?_⟩
  · rw [h1, List.length_take, hlen, Nat.min_eq_left hcle]
  · rw [h2, List.length_take, List.length_drop, hlen, Nat.min_eq_left (by omega)]
  · rw [h3, List.length_take, List.length_drop, hlen, Nat.min_eq_left (by omega)]
  · rw [h4, List.length_take, List.length_drop, hlen, Nat.min_eq_left (by omega)]
  · rw [h5, List.length_drop, hlen]
    omega
  · exact fun p i hpi => speciesAssign_pos atoms perm hp p i hpi

/-- Counterexample to C1 as stated: at N = 3 the group size is
round(0.2·3) = round(0.6) = 1, the four slice bounds 0,1,2,3,4 overrun the
3-element permutation, and the fourth slice is empty — species 4 receives 0
atoms, not 1. -/
theorem claim_C1_counterexample :
    countType (speciesAssign [atom0, atom0, atom0] [0, 1, 2]) 4 ≠ groupSize 3 := by
  have hg : groupSize 3 = 1 := by norm_num [groupSize, round_eq]
  have hlen : List.length [atom0, atom0, atom0] = 3 := rfl
  have h0 : countType (speciesAssign [atom0, atom0, atom0] [0, 1, 2]) 4 = 0 := by
    rw [speciesAssign_def, hlen, hg]
    decide
  rw [h0, hg]
  decide

/-- Witness for C1 at N = 5 with a nontrivial permutation: every hypothesis is
discharged concretely (round(0.2·5) = 1 and 4·1 ≤ 5). -/
theorem claim_C1_quota_witness :
    countType (speciesAssign [atom0, atom0, atom0, atom0, atom0] [4, 2, 0, 1, 3]) 1 =
      groupSize 5 ∧
    countType (speciesAssign [atom0, atom0, atom0, atom0, atom0] [4, 2, 0, 1, 3]) 2 =
      groupSize 5 ∧
    countType (speciesAssign [atom0, atom0, atom0, atom0, atom0] [4, 2, 0, 1, 3]) 3 =
      groupSize 5 ∧
    countType (speciesAssign [atom0, atom0, atom0, atom0, atom0] [4, 2, 0, 1, 3]) 4 =
      groupSize 5 ∧
    countType (speciesAssign [atom0, atom0, atom0, atom0, atom0] [4, 2, 0, 1, 3]) 5 =
      5 - 4 * groupSize 5 ∧
    (∀ p i, ([4, 2, 0, 1, 3] : List ℕ)[p]? = some i →
      (speciesAssign [atom0, atom0, atom0, atom0, atom0] [4, 2, 0, 1, 3])[i]? =
        (([atom0, atom0, atom0, atom0, atom0] : List Atom)[i]?).map
          (fun (a : Atom) => { a with type := posType (groupSize 5) p })) :=
  claim_C1_quota [atom0, atom0, atom0, atom0, atom0] [4, 2, 0, 1, 3]
    (by decide) (by decide)
    (by norm_num [groupSize, round_eq])

/-- C2: after the species assigner runs on a parsed atom set of size N > 0,
no atom keeps the unset type 0 — every atom carries exactly one species type
in {1,…,5} — and the five per-species counts sum exactly to N. -/
theorem claim_C2_total (atoms : List Atom) (perm : List ℕ)
    (hp : perm.Perm (List.range atoms.length)) (_hN : 0 < atoms.length) :
    (speciesAssign atoms perm).length = atoms.length ∧
    (∀ a ∈ speciesAssign atoms perm, 1 ≤ a.type ∧ a.type ≤ 5) ∧
    countType (speciesAssign atoms perm) 1 + countType (speciesAssign atoms perm) 2 +
      countType (speciesAssign atoms perm) 3 + countType (speciesAssign atoms perm) 4 +
      countType (speciesAssign atoms perm) 5 = atoms.length :=
  ⟨length_speciesAssign atoms perm,
   speciesAssign_type_bounds atoms perm hp,
   (countType_sum_eq_length _ (speciesAssign_type_bounds atoms perm hp)).trans
     (length_speciesAssign atoms perm)⟩

/-- Witness for C2 at N = 2 with the swap permutation. -/
theorem claim_C2_total_witness :
    (speciesAssign [atom0, atom0] [1, 0]).length = 2 ∧
    (∀ a ∈ speciesAssign [atom0, atom0] [1, 0], 1 ≤ a.type ∧ a.type ≤ 5) ∧
    countType (speciesAssign [atom0, atom0] [1, 0]) 1 +
      countType (speciesAssign [atom0, atom0] [1, 0]) 2 +
      countType (speciesAssign [atom0, atom0] [1, 0]) 3 +
      countType (speciesAssign [atom0, atom0] [1, 0]) 4 +
      countType (speciesAssign [atom0, atom0] [1, 0]) 5 = 2 :=
  claim_C2_total [atom0, atom0] [1, 0] (by decide) (by decide)

/-- C3: the coordinate normalizer scales if and only if all three per-axis
ranges are strictly below the threshold 2; in particular an input with some
axis range exactly 2 is classified as absolute and left unmodified. -/
theorem claim_C3_threshold (atoms : List Atom) :
    ((xRange atoms = 2 ∨ yRange atoms = 2 ∨ zRange atoms = 2) →
      normalize atoms = atoms) ∧
    (¬(xRange atoms < 2 ∧ yRange atoms < 2 ∧ zRange atoms < 2) →
      normalize atoms = atoms) ∧
    ((xRange atoms < 2 ∧ yRange atoms < 2 ∧ zRange atoms < 2) →
      normalize atoms = atoms.map scaleAtom) := by
  refine ⟨?_, fun h => normalize_of_absolute atoms h,
    fun h => normalize_of_fractional atoms h.1 h.2.1 h.2.2⟩
  intro h
  apply normalize_of_absolute
  intro hc
  rcases h with h | h | h
  · rw [h] at hc
    exact lt_irrefl 2 hc.1
  · rw [h] at hc
    exact lt_irrefl 2 hc.2.1
  · rw [h] at hc
    exact lt_irrefl 2 hc.2.2

/-- Witness for C3: a two-atom input with x-range exactly 2 is left
unmodified, and a one-atom input (all ranges 0) is scaled. -/
theorem claim_C3_threshold_witness :
    normalize [atom0, atom2] = [atom0, atom2] ∧
    normalize [atom0] = [atom0].map scaleAtom :=
  ⟨(claim_C3_threshold [atom0, atom2]).1
      (Or.inl (by norm_num [xRange, pyMax, pyMin, atom0, atom2, max_def, min_def])),
   (claim_C3_threshold [atom0]).2.2
      (by norm_num [xRange, yRange, zRange, pyMax, pyMin, atom0])⟩

/-- C4: for inputs whose three axis ranges are all strictly below 2, every
coordinate of every output atom equals the corresponding input coordinate
multiplied by 198, exactly, and the scaling is applied exactly once (the
output is a single elementwise multiply of the input, order preserved). -/
theorem claim_C4_scale (atoms : List Atom) (hx : xRange atoms < 2)
    (hy : yRange atoms < 2) (hz : zRange atoms < 2) :
    (normalize atoms).length = atoms.length ∧
    ∀ i : ℕ, ((normalize atoms)[i]?).map (fun a => (a.x, a.y, a.z)) =
      (atoms[i]?).map (fun a => (a.x * 198, a.y * 198, a.z * 198)) := by
  refine ⟨length_normalize atoms, fun i => ?_⟩
  rw [normalize_of_fractional atoms hx hy hz, List.getElem?_map]
  cases atoms[i]? <;> rfl

/-- Witness for C4 on a one-atom input (all ranges 0 < 2). -/
theorem claim_C4_scale_witness :
    (normalize [atom0]).length = 1 ∧
    ∀ i : ℕ, ((normalize [atom0])[i]?).map (fun a => (a.x, a.y, a.z)) =
      (([atom0] : List Atom)[i]?).map (fun a => (a.x * 198, a.y * 198, a.z * 198)) :=
  claim_C4_scale [atom0]
    (by norm_num [xRange, pyMax, pyMin, atom0])
    (by norm_num [yRange, pyMax, pyMin, atom0])
    (by norm_num [zRange, pyMax, pyMin, atom0])

/-- C5: for every successfully parsed atom set of size N > 0, the pipeline
writes an output whose atom-count line states N, whose Atoms section contains
exactly N lines, and whose i-th atom line carries the 1-based id i followed by
the i-th atom's species type and its (possibly normalized) coordinates, in
original parse order. -/
theorem claim_C5_writer (shuffle : List ℕ → List ℕ) (input : List String)
    (atoms final : List Atom)
    (hA : atoms = parseAtoms (splitHeader input).2)
    (hF : final = speciesAssign (normalize atoms) (shuffle (List.range atoms.length)))
    (hN : 0 < atoms.length)
    (hs : (shuffle (List.range atoms.length)).Perm (List.range atoms.length)) :
    pipeline shuffle input = Except.ok (outputLines atoms.length final) ∧
    (outputLines atoms.length final)[2]? = some (toString atoms.length ++ " atoms") ∧
    (outputLines atoms.length final).length = 19 + atoms.length ∧
    (outputLines atoms.length final).drop 19 = atomLines final ∧
    (atomLines final).length = atoms.length ∧
    (∀ i a, final[i]? = some a → (atomLines final)[i]? = some (atomLine (i + 1) a)) ∧
    (∀ i : ℕ, (final[i]?).map (fun a => (a.x, a.y, a.z, a.grain)) =
      ((normalize atoms)[i]?).map (fun a => (a.x, a.y, a.z, a.grain))) := by
  subst hA
  subst hF
  refine ⟨?_, outputLines_countLine _ _, ?_, outputLines_drop _ _, ?_, ?_, ?_⟩
  · exact pipeline_of_atoms shuffle input (by omega)
  · rw [length_outputLines, length_speciesAssign, length_normalize]
  · rw [length_atomLines, length_speciesAssign, length_normalize]
  · intro i a hia
    rw [atomLines_getElem?, hia]
    rfl
  · intro i
    have hpnorm : (shuffle (List.range
        (parseAtoms (splitHeader input).2).length)).Perm
        (List.range (normalize (parseAtoms (splitHeader input).2)).length) := by
      rw [length_normalize]
      exact hs
    exact speciesAssign_coords (normalize (parseAtoms (splitHeader input).2)) _ hpnorm i

/-- Witness for C5: a two-line file whose body holds one valid atom record,
run with the identity shuffle. -/
theorem claim_C5_writer_witness :
    pipeline (fun l => l) ["Fe", "0.5 0.25 0.75 3"] =
      Except.ok (outputLines (parseAtoms (splitHeader ["Fe", "0.5 0.25 0.75 3"]).2).length
        (speciesAssign (normalize (parseAtoms (splitHeader ["Fe", "0.5 0.25 0.75 3"]).2))
          ((fun l => l)
            (List.range (parseAtoms (splitHeader ["Fe", "0.5 0.25 0.75 3"]).2).length)))) :=
  (claim_C5_writer (fun l => l) ["Fe", "0.5 0.25 0.75 3"] _ _ rfl rfl
    (by decide) (List.Perm.refl _)).1

/-- C6: an atom-body line with fewer than 4 whitespace-separated fields, or
whose first three fields do not all parse as floats, is silently skipped: it
parses to nothing, and a body containing it parses to exactly the records of
the body without it, in order, with no error raised. -/
theorem claim_C6_skip (pre post : List String) (bad : String)
    (h : (pySplit (pyStrip bad.data)).length < 4 ∨
      pyFloat (String.mk ((pySplit (pyStrip bad.data)).getD 0 [])) = none ∨
      pyFloat (String.mk ((pySplit (pyStrip bad.data)).getD 1 [])) = none ∨
      pyFloat (String.mk ((pySplit (pyStrip bad.data)).getD 2 [])) = none) :
    parseAtomLine bad = none ∧
    parseAtoms (pre ++ bad :: post) = parseAtoms (pre ++ post) := by
  have hb := parseAtomLine_eq_none h
  exact ⟨hb, parseAtoms_skip pre post bad hb⟩

/-- Witness for C6: a 2-field line inserted between valid 4-field lines. -/
theorem claim_C6_skip_witness :
    parseAtomLine "1.0 2.0" = none ∧
    parseAtoms (["0.1 0.2 0.3 7"] ++ "1.0 2.0" :: ["0.4 0.5 0.6 8"]) =
      parseAtoms (["0.1 0.2 0.3 7"] ++ ["0.4 0.5 0.6 8"]) :=
  claim_C6_skip ["0.1 0.2 0.3 7"] ["0.4 0.5 0.6 8"] "1.0 2.0" (by decide)

/-- C7: when the parse yields zero valid atom records, the pipeline terminates
with the fatal "[ERROR] No atoms parsed. Exiting." message and never produces
an output file. -/
theorem claim_C7_empty (shuffle : List ℕ → List ℕ) (input : List String)
    (h : parseAtoms (splitHeader input).2 = []) :
    pipeline shuffle input = Except.error "[ERROR] No atoms parsed. Exiting." ∧
    ∀ out, pipeline shuffle input ≠ Except.ok out := by
  have he := pipeline_of_no_atoms shuffle input h
  refine ⟨he, fun out hout => ?_⟩
  rw [he] at hout
  cases hout

/-- Witness for C7: a file whose body has no valid atom line. -/
theorem claim_C7_empty_witness :
    pipeline (fun l => l) ["x Fe", "garbage"] =
      Except.error "[ERROR] No atoms parsed. Exiting." ∧
    ∀ out, pipeline (fun l => l) ["x Fe", "garbage"] ≠ Except.ok out :=
  claim_C7_empty (fun l => l) ["x Fe", "garbage"] (by decide)

/-- C8: the parser accumulates lines into the header up to and including the
first line containing the species marker; every later line belongs to the
atom body, and marker occurrences after the first do not move the split. -/
theorem claim_C8_header (pre : List String) (m : String) (post : List String)
    (hpre : ∀ l ∈ pre, markerIn l = false) (hm : markerIn m = true) :
    splitHeader (pre ++ m :: post) = (pre ++ [m], post) :=
  splitHeader_marker pre m post hpre hm

/-- Witness for C8: the body contains another marker line, which stays in the
body. -/
theorem claim_C8_header_witness :
    splitHeader (["# header"] ++ "  12 Fe stuff" :: ["1 2 3 4", "Fe again"]) =
      (["# header"] ++ ["  12 Fe stuff"], ["1 2 3 4", "Fe again"]) :=
  claim_C8_header ["# header"] "  12 Fe stuff" ["1 2 3 4", "Fe again"]
    (by decide) (by decide)

/-- C9: with the random generator held at a fixed state (here: an explicit
shuffle function), two runs over identical input produce an identical
permutation, an identical species assignment, and byte-identical output. -/
theorem claim_C9_determinism (shuffle : List ℕ → List ℕ)
    (input1 input2 : List String) (h : input1 = input2) :
    shuffle (List.range (parseAtoms (splitHeader input1).2).length) =
      shuffle (List.range (parseAtoms (splitHeader input2).2).length) ∧
    speciesAssign (normalize (parseAtoms (splitHeader input1).2))
        (shuffle (List.range (parseAtoms (splitHeader input1).2).length)) =
      speciesAssign (normalize (parseAtoms (splitHeader input2).2))
        (shuffle (List.range (parseAtoms (splitHeader input2).2).length)) ∧
    pipelineFile shuffle input1 = pipelineFile shuffle input2 := by
  subst h
  exact ⟨rfl, rfl, rfl⟩

/-- Witness for C9 at a concrete input and the identity shuffle. -/
theorem claim_C9_determinism_witness :
    pipelineFile (fun l => l) ["Fe", "1 2 3 4"] =
      pipelineFile (fun l => l) ["Fe", "1 2 3 4"] :=
  (claim_C9_determinism (fun l => l) ["Fe", "1 2 3 4"] ["Fe", "1 2 3 4"] rfl).2.2

/-- C10 (implicit): the header/body boundary is a substring test, so when no
input line contains "Fe" in its stripped text, every line lands in the header,
zero atoms are parsed, and the pipeline aborts with the empty-atom-set error
without writing output. -/
theorem claim_C10_no_marker (shuffle : List ℕ → List ℕ) (input : List String)
    (h : ∀ l ∈ input, markerIn l = false) :
    splitHeader input = (input, []) ∧
    pipeline shuffle input = Except.error "[ERROR] No atoms parsed. Exiting." := by
  have hs := splitHeader_no_marker input h
  refine ⟨hs, pipeline_of_no_atoms shuffle input ?_⟩
  rw [hs]
  rfl

/-- Witness for C10: a marker-free file whose second line is even a valid atom
record; it still lands in the header and the pipeline aborts. -/
theorem claim_C10_no_marker_witness :
    splitHeader ["no marker", "1 2 3 4"] = (["no marker", "1 2 3 4"], []) ∧
    pipeline (fun l => l) ["no marker", "1 2 3 4"] =
      Except.error "[ERROR] No atoms parsed. Exiting." :=
  claim_C10_no_marker (fun l => l) ["no marker", "1 2 3 4"] (by decide)

end Randomizer5
